import Mathlib

/-!
Verification development for the GitSwitchHub account-resolution and
credential-helper coordination engine.

The repository ships the React management surface (`src/App.tsx`); the
Rust backend that implements the Resolver and the Coordinator is only
called from that surface (via `invoke`), so those components are
modelled here from the specification's algorithm descriptions.  The
frontend's `loadData` and mapping-list rendering are embedded directly
from `src/App.tsx`.
-/

namespace GitSwitchHub

/-- Modelled from the spec: an Account row of the Account Store (the Rust
backend's account table is not in the shipped sources).  Identity id,
display name, creation timestamp; the opaque secret handle is irrelevant
to resolution and omitted. -/
structure Account where
  id : String
  name : String
  createdAt : Nat
deriving DecidableEq, Repr

/-- Modelled from the spec: a remote-match rule is either an exact
normalized remote identity or a prefix/glob pattern. -/
inductive Rule where
  | exact (key : String)
  | pattern (pat : String)
deriving DecidableEq, Repr

/-- Modelled from the spec: a Mapping row of the Mapping Store. -/
structure Mapping where
  id : String
  rule : Rule
  accountId : String
  remember : Bool
  createdAt : Nat
deriving DecidableEq, Repr

/-- Modelled from the spec: the Resolver's outcome type
`Unique(account) | Ambiguous | NotFound`. -/
inductive Resolution where
  | Unique (accountId : String)
  | Ambiguous
  | NotFound
deriving DecidableEq, Repr

/-- Whether a resolution is the `Unique` constructor. -/
def Resolution.isUnique : Resolution → Bool
  | .Unique _ => true
  | _ => false

/-- Fuel-bounded glob matcher: `*` matches any (possibly empty) run of
characters, every other pattern character matches itself.  The fuel is
only a structural-recursion device; `globMatch` supplies enough fuel that
the `0` case is never reached. -/
def globMatchAux : Nat → List Char → List Char → Bool
  | 0, _, _ => false
  | _ + 1, [], [] => true
  | f + 1, '*' :: ps, [] => globMatchAux f ps []
  | _ + 1, [], _ :: _ => false
  | f + 1, '*' :: ps, c :: cs =>
      globMatchAux f ps (c :: cs) || globMatchAux f ('*' :: ps) cs
  | f + 1, pc :: ps, c :: cs => pc = c && globMatchAux f ps cs
  | _ + 1, _ :: _, [] => false

/-- Modelled from the spec: pattern-rule matching ("a prefix/glob matching
a family of remote identities"). -/
def globMatch (p s : List Char) : Bool :=
  globMatchAux (p.length + s.length + 1) p s

/-- Modelled from the spec: whether a rule matches a normalized remote
identity — an exact rule by string equality, a pattern rule by glob. -/
def ruleMatches (r : Rule) (remote : String) : Bool :=
  match r with
  | .exact k => k = remote
  | .pattern p => globMatch p.data remote.data

/-- Length of the longest literal (non-wildcard) prefix of a pattern. -/
def literalPrefixLen : List Char → Nat
  | [] => 0
  | '*' :: _ => 0
  | _ :: cs => literalPrefixLen cs + 1

/-- Modelled from the spec: specificity = length of the rule's longest
literal (non-wildcard) prefix. -/
def Rule.specificity : Rule → Nat
  | .exact k => k.length
  | .pattern p => literalPrefixLen p.data

/-- Whether a mapping is an exact rule for this remote identity. -/
def isExactFor (remote : String) (m : Mapping) : Bool :=
  match m.rule with
  | .exact k => k = remote
  | .pattern _ => false

/-- Whether a mapping carries a pattern rule. -/
def isPatternRule (m : Mapping) : Bool :=
  match m.rule with
  | .exact _ => false
  | .pattern _ => true

/-- Modelled from the spec: step (2) of the Resolver — all pattern rules
whose pattern matches the remote identity. -/
def patternCands (remote : String) (mappings : List Mapping) : List Mapping :=
  mappings.filter (fun m => isPatternRule m && ruleMatches m.rule remote)

/-- Maximum specificity among the matching pattern rules (0 when none). -/
def maxSpec (remote : String) (mappings : List Mapping) : Nat :=
  ((patternCands remote mappings).map (fun m => m.rule.specificity)).foldr max 0

/-- Modelled from the spec: the top specificity rank among the matching
pattern rules. -/
def topRank (remote : String) (mappings : List Mapping) : List Mapping :=
  (patternCands remote mappings).filter
    (fun m => m.rule.specificity = maxSpec remote mappings)

/-- The mappings of `l` whose creation timestamp is the most recent. -/
def mostRecentCreated (l : List Mapping) : List Mapping :=
  l.filter (fun m => m.createdAt = (l.map Mapping.createdAt).foldr max 0)

/-- Modelled from the spec (§4.2, the Rust Resolver is not in the shipped
sources): (1) an exact rule equal to the remote identity wins outright;
(2) otherwise rank matching pattern rules by specificity descending;
(3) a unique top-rank candidate wins, ties break by most recent creation
timestamp, a remaining tie is Ambiguous; (4) no matching rule is NotFound,
except that with exactly one Account the Resolver still answers Ambiguous
(auto-selection is Coordinator policy). -/
def resolve (remote : String) (mappings : List Mapping)
    (accounts : List Account) : Resolution :=
  match mappings.find? (isExactFor remote) with
  | some m => .Unique m.accountId
  | none =>
    match topRank remote mappings with
    | [] => if accounts.length = 1 then .Ambiguous else .NotFound
    | [m] => .Unique m.accountId
    | top =>
      match mostRecentCreated top with
      | [m] => .Unique m.accountId
      | _ => .Ambiguous

/-- Modelled from the spec: CredentialRequest lifecycle states. -/
inductive ReqState where
  | Pending
  | Resolved (accountId : String)
  | TimedOut
  | Cancelled
deriving DecidableEq, Repr

/-- Modelled from the spec: a transient, Coordinator-owned
CredentialRequest (correlation id, normalized remote identity, state). -/
structure CredentialRequest where
  reqId : Nat
  remote : String
  state : ReqState
deriving DecidableEq, Repr

/-- Modelled from the spec: a PendingSelection — one per distinct remote
identity, owning the ordered list of waiting CredentialRequests. -/
structure PendingSelection where
  remote : String
  waiters : List Nat
deriving DecidableEq, Repr

/-- Modelled from the spec: the Coordinator's in-memory state — the two
stores' views, the PendingSelection table, the CredentialRequest table,
and fresh-id counters (all mutations serialized through one writer). -/
structure CoordState where
  accounts : List Account
  mappings : List Mapping
  pending : List PendingSelection
  requests : List CredentialRequest
  nextReqId : Nat
  nextMapId : Nat
deriving DecidableEq, Repr

/-- Modelled from the spec: failure reasons on the Endpoint/Coordinator
IPC channel. -/
inductive FailReason where
  | NoAccountsConfigured
  | Timeout
  | Cancelled
  | ResolverAmbiguous
deriving DecidableEq, Repr

/-- Modelled from the spec: the Coordinator's answer to a `Resolve`
call — immediate account, immediate failure, or a parked request. -/
inductive Outcome where
  | answered (accountId : String)
  | failed (reason : FailReason)
  | parked (reqId : Nat)
deriving DecidableEq, Repr

/-- Whether this PendingSelection belongs to the given remote. -/
def isFor (remote : String) (p : PendingSelection) : Bool :=
  p.remote = remote

/-- Append a freshly arrived request id to the remote's selection. -/
def extendSel (remote : String) (rid : Nat) (p : PendingSelection) :
    PendingSelection :=
  if isFor remote p then { p with waiters := p.waiters ++ [rid] } else p

/-- Modelled from the spec: create or join the PendingSelection for a
remote identity, registering a fresh CredentialRequest as the newest
waiter (coalescing: at most one PendingSelection per remote). -/
def park (st : CoordState) (remote : String) : CoordState × Outcome :=
  let rid := st.nextReqId
  let req : CredentialRequest := { reqId := rid, remote := remote, state := .Pending }
  let pending' :=
    if st.pending.any (isFor remote) then
      st.pending.map (extendSel remote rid)
    else
      st.pending ++ [{ remote := remote, waiters := [rid] }]
  ({ st with pending := pending', requests := st.requests ++ [req],
             nextReqId := rid + 1 },
   .parked rid)

/-- Modelled from the spec (§4.3, the Rust Coordinator is not in the
shipped sources): `Resolve(remote_identity)` — a `Unique` Resolver answer
is returned immediately with no state created; with zero Accounts the
call fails with `NoAccountsConfigured`; with exactly one Account and no
matching Mapping the single-account shortcut answers that account;
otherwise the request is parked on the (coalesced) PendingSelection. -/
def coordResolve (st : CoordState) (remote : String) : CoordState × Outcome :=
  match resolve remote st.mappings st.accounts with
  | .Unique aid => (st, .answered aid)
  | _ =>
    match st.accounts with
    | [] => (st, .failed .NoAccountsConfigured)
    | [a] =>
      if st.mappings.any (fun m => ruleMatches m.rule remote) then
        park st remote
      else
        (st, .answered a.id)
    | _ => park st remote

/-- Whether any stored account carries this account id. -/
def accountExists (accounts : List Account) (accountId : String) : Bool :=
  accounts.any (fun a => a.id = accountId)

/-- Modelled from the spec: `MappingConflict` — a duplicate exact rule
for the same remote pointing at a different account is rejected. -/
def hasExactConflict (remote accountId : String)
    (mappings : List Mapping) : Bool :=
  mappings.any (fun m => isExactFor remote m && m.accountId ≠ accountId)

/-- Modelled from the spec: the single mutation path's atomic create of
an exact-rule Mapping (rejected on `MappingConflict`, existing mapping
kept). -/
def createExactMapping (st : CoordState) (remote accountId : String) :
    CoordState :=
  if hasExactConflict remote accountId st.mappings then st
  else
    { st with
      mappings :=
        { id := toString st.nextMapId, rule := .exact remote,
          accountId := accountId, remember := true,
          createdAt := 0 } :: st.mappings,
      nextMapId := st.nextMapId + 1 }

/-- Release every waiting CredentialRequest of the selection with the
chosen account. -/
def releaseWaiters (waiters : List Nat) (accountId : String)
    (reqs : List CredentialRequest) : List CredentialRequest :=
  reqs.map (fun r =>
    if waiters.contains r.reqId then { r with state := .Resolved accountId }
    else r)

/-- Modelled from the spec: `SubmitSelection(remote, account, remember)` —
validates the PendingSelection and the account exist; with `remember`
atomically creates the exact Mapping; transitions the selection to
Resolved, releasing every blocked CredentialRequest with that account. -/
def submitSelection (st : CoordState) (remote accountId : String)
    (remember : Bool) : CoordState × Bool :=
  match st.pending.find? (isFor remote) with
  | none => (st, false)
  | some p =>
    if accountExists st.accounts accountId then
      let st1 := if remember then createExactMapping st remote accountId else st
      ({ st1 with
         pending := st1.pending.filter (fun q => !isFor remote q),
         requests := releaseWaiters p.waiters accountId st1.requests },
       true)
    else (st, false)

/-- Transition every waiter of the remote's PendingSelection to the given
terminal state and drop the selection; the Mapping store is untouched. -/
def closePending (s : ReqState) (st : CoordState) (remote : String) :
    CoordState :=
  match st.pending.find? (isFor remote) with
  | none => st
  | some p =>
    { st with
      pending := st.pending.filter (fun q => !isFor remote q),
      requests := st.requests.map (fun r =>
        if p.waiters.contains r.reqId && r.state = .Pending then
          { r with state := s }
        else r) }

/-- Modelled from the spec: automatic timeout of a PendingSelection whose
deadline passed with no `SubmitSelection`. -/
def timeoutPending (st : CoordState) (remote : String) : CoordState :=
  closePending .TimedOut st remote

/-- Modelled from the spec: `Cancel(remote_identity)`. -/
def cancelPending (st : CoordState) (remote : String) : CoordState :=
  closePending .Cancelled st remote

/-- Ordered prompt-worthy entries exposed to the interactive channel. -/
def listPending (st : CoordState) : List String :=
  st.pending.map PendingSelection.remote

/-- Number of PendingSelections held for a remote identity. -/
def pendingCount (remote : String) (st : CoordState) : Nat :=
  st.pending.countP (isFor remote)

/-- The ordered waiter ids of the remote's PendingSelection. -/
def waitersFor (remote : String) (st : CoordState) : List Nat :=
  match st.pending.find? (isFor remote) with
  | some p => p.waiters
  | none => []

/-- Modelled from the spec: N concurrent `Resolve` calls for one remote
are serialized by the Coordinator's single logical writer; their effect
is the arrival-ordered iteration of `coordResolve`. -/
def resolveMany (st : CoordState) (remote : String) : Nat → CoordState
  | 0 => st
  | n + 1 => resolveMany (coordResolve st remote).1 remote n

/-- A sample Coordinator state with two accounts and no rules, used to
exercise the coalescing behaviour on concrete inputs. -/
def sampleCoalesceState : CoordState :=
  { accounts := [{ id := "A", name := "alice", createdAt := 0 },
                 { id := "B", name := "bob", createdAt := 0 }],
    mappings := [], pending := [], requests := [],
    nextReqId := 0, nextMapId := 0 }

namespace App

/-- Embedded from `interface Account` in `src/App.tsx`. -/
structure Account where
  id : String
  username : String
  avatar_url : Option String
  auth_method : String
  created_at : String
deriving DecidableEq, Repr

/-- Embedded from `interface RepositoryMapping` in `src/App.tsx`. -/
structure RepositoryMapping where
  id : String
  remote_url : String
  account_id : String
  remember : Bool
  created_at : String
deriving DecidableEq, Repr

/-- Embedded from `interface GitHelperStatus` in `src/App.tsx`. -/
structure GitHelperStatus where
  installed : Bool
  configured : Bool
deriving DecidableEq, Repr

/-- The `App` component's state variables touched by `loadData`. -/
structure AppState where
  accounts : List Account
  mappings : List RepositoryMapping
  gitHelperStatus : GitHelperStatus
  loading : Bool
  error : Option String
  success : Option String
deriving DecidableEq, Repr

/-- `Promise.all` over the three backend fetches: resolves with the
triple when all three succeed; rejects as soon as any rejects. -/
def promiseAll3 {α β γ : Type} (a : Except String α) (b : Except String β)
    (c : Except String γ) : Except String (α × β × γ) :=
  match a, b, c with
  | .ok x, .ok y, .ok z => .ok (x, y, z)
  | .error e, _, _ => .error e
  | _, .error e, _ => .error e
  | _, _, .error e => .error e

/-- Embedded from `loadData` in `src/App.tsx` (identical in both shipped
variants): awaits the three fetches under one `Promise.all`; when all
succeed the three state variables are set and the error cleared; when any
rejects only the error message is set; `loading` is reset either way by
the `finally` block. -/
def loadData (st : AppState) (ra : Except String (List Account))
    (rm : Except String (List RepositoryMapping))
    (rg : Except String GitHelperStatus) : AppState :=
  match promiseAll3 ra rm rg with
  | .ok (accountsData, mappingsData, gitStatus) =>
    { st with accounts := accountsData, mappings := mappingsData,
              gitHelperStatus := gitStatus, error := none, loading := false }
  | .error e =>
    { st with error := some ("Failed to load data: " ++ e),
              loading := false }

/-- Embedded from the mappings-list rendering in `src/App.tsx`:
`accounts.find(a => a.id === mapping.account_id)` followed by
`account?.username || 'Unknown'` — JavaScript `||` yields `'Unknown'`
when no account matches and also when the matched username is the empty
string (falsy). -/
def displayedAccountName (accounts : List Account)
    (m : RepositoryMapping) : String :=
  match accounts.find? (fun a => a.id = m.account_id) with
  | some a => if a.username = "" then "Unknown" else a.username
  | none => "Unknown"

/-- The data shown on one rendered mapping card. -/
structure MappingCard where
  remote_url : String
  accountName : String
  remember : Bool
deriving DecidableEq, Repr

/-- Embedded from `mappings.map(mapping => ...)` in `src/App.tsx`: the
rendered mappings list, one card per mapping. -/
def renderMappings (accounts : List Account)
    (mappings : List RepositoryMapping) : List MappingCard :=
  mappings.map (fun m =>
    { remote_url := m.remote_url,
      accountName := displayedAccountName accounts m,
      remember := m.remember })

end App

/-- An initial `App` component state, as set by the `useState` calls in
`src/App.tsx`. -/
def initialAppState : App.AppState :=
  { accounts := [], mappings := [],
    gitHelperStatus := { installed := false, configured := false },
    loading := false, error := none, success := none }

/-- A sample successful `get_git_helper_status` fetch result. -/
def sampleStatus : App.GitHelperStatus :=
  { installed := true, configured := true }

/-- Every member of a `Nat` list is bounded by its `foldr max 0`. -/
theorem le_foldr_max (l : List Nat) : ∀ x ∈ l, x ≤ l.foldr max 0 := by
  induction l with
  | nil => intro x hx; cases hx
  | cons a t ih =>
    intro x hx
    rcases List.mem_cons.mp hx with h | h
    · subst h; exact Nat.le_max_left _ _
    · exact Nat.le_trans (ih x h) (Nat.le_max_right _ _)

/-- A nonempty `Nat` list contains its `foldr max 0`. -/
theorem foldr_max_mem : ∀ (l : List Nat), l ≠ [] → l.foldr max 0 ∈ l := by
  intro l
  induction l with
  | nil => intro h; exact absurd rfl h
  | cons a t ih =>
    intro _
    cases t with
    | nil => simp
    | cons b u =>
      rcases max_choice a ((b :: u).foldr max 0) with h | h
      · rw [List.foldr_cons, h]; exact List.mem_cons_self _ _
      · rw [List.foldr_cons, h]
        exact List.mem_cons_of_mem _ (ih (by simp))

/-- When some pattern rule matches, the top rank is nonempty: the maximum
specificity is attained by a candidate. -/
theorem topRank_ne_nil (remote : String) (mappings : List Mapping)
    (h : patternCands remote mappings ≠ []) :
    topRank remote mappings ≠ [] := by
  have hmem : maxSpec remote mappings ∈
      (patternCands remote mappings).map (fun m => m.rule.specificity) := by
    apply foldr_max_mem
    simpa using h
  rcases List.mem_map.mp hmem with ⟨m, hm, hspec⟩
  have : m ∈ topRank remote mappings := by
    exact List.mem_filter.mpr ⟨hm, by simpa using hspec⟩
  intro hnil
  rw [hnil] at this
  cases this

/-- Members of the top rank attain the maximum specificity. -/
theorem topRank_spec_eq (remote : String) (mappings : List Mapping)
    (m : Mapping) (hm : m ∈ topRank remote mappings) :
    m.rule.specificity = maxSpec remote mappings := by
  have := (List.mem_filter.mp hm).2
  simpa using this

/-- Members of the top rank belong to the matching candidates. -/
theorem topRank_subset (remote : String) (mappings : List Mapping)
    (m : Mapping) (hm : m ∈ topRank remote mappings) :
    m ∈ patternCands remote mappings :=
  (List.mem_filter.mp hm).1

/-- Every matching pattern rule's specificity is bounded by `maxSpec`. -/
theorem spec_le_maxSpec (remote : String) (mappings : List Mapping)
    (m : Mapping) (hm : m ∈ patternCands remote mappings) :
    m.rule.specificity ≤ maxSpec remote mappings :=
  le_foldr_max _ _ (List.mem_map_of_mem (fun m => m.rule.specificity) hm)

/-- C1.  Exact rules always outrank pattern rules: whenever the mapping
table holds a Mapping whose exact rule equals the remote identity (unique
per exact key, as the store enforces), `resolve` returns `Unique` of that
mapping's target account.  The mapping table may hold arbitrary pattern
rules of any specificity or creation recency; they never influence the
outcome. -/
theorem resolve_exact_wins (remote : String) (mappings : List Mapping)
    (accounts : List Account) (m : Mapping)
    (hm : m ∈ mappings) (hx : isExactFor remote m = true)
    (huniq : ∀ m' ∈ mappings, isExactFor remote m' = true → m' = m) :
    resolve remote mappings accounts = .Unique m.accountId := by
  unfold resolve
  cases hfind : mappings.find? (isExactFor remote) with
  | none =>
    rw [List.find?_eq_none] at hfind
    exact absurd hx (by simpa using hfind m hm)
  | some m' =>
    have h1 : isExactFor remote m' = true := List.find?_some hfind
    have h2 : m' ∈ mappings := List.mem_of_find?_eq_some hfind
    rw [huniq m' h2 h1]

/-- Witness for C1: an exact rule for `github.com/org/repo` beats a more
specific and more recent pattern rule. -/
theorem resolve_exact_wins_witness :
    resolve "github.com/org/repo"
      [{ id := "m1", rule := .exact "github.com/org/repo",
         accountId := "A", remember := true, createdAt := 1 },
       { id := "m2", rule := .pattern "github.com/org/repo*",
         accountId := "B", remember := true, createdAt := 9 }]
      [{ id := "A", name := "alice", createdAt := 0 },
       { id := "B", name := "bob", createdAt := 0 }] = .Unique "A" :=
  resolve_exact_wins "github.com/org/repo" _ _
    { id := "m1", rule := .exact "github.com/org/repo",
      accountId := "A", remember := true, createdAt := 1 }
    (by decide) (by decide) (by decide)

/-- C2.  With no exact rule and at least one matching pattern rule,
`resolve` ranks the matching pattern rules by longest-literal-prefix
specificity descending: every top-rank rule's specificity dominates every
candidate's; a top rank of exactly one rule yields `Unique` of its
account; with several top-rank rules the one with the most recent
creation timestamp wins; and when the most recent timestamp is still
shared, the outcome is `Ambiguous`. -/
theorem resolve_pattern_ranking (remote : String) (mappings : List Mapping)
    (accounts : List Account)
    (hnoexact : ∀ m ∈ mappings, isExactFor remote m = false)
    (hne : patternCands remote mappings ≠ []) :
    (∀ m₁ ∈ topRank remote mappings, ∀ m₂ ∈ patternCands remote mappings,
       m₂.rule.specificity ≤ m₁.rule.specificity) ∧
    (∀ m, topRank remote mappings = [m] →
       resolve remote mappings accounts = .Unique m.accountId) ∧
    (∀ m, 2 ≤ (topRank remote mappings).length →
       mostRecentCreated (topRank remote mappings) = [m] →
       resolve remote mappings accounts = .Unique m.accountId) ∧
    (2 ≤ (mostRecentCreated (topRank remote mappings)).length →
       resolve remote mappings accounts = .Ambiguous) := by
  have hfind : mappings.find? (isExactFor remote) = none := by
    rw [List.find?_eq_none]
    intro x hx
    simp [hnoexact x hx]
  refine ⟨?_, ?_, ?_, ?_⟩
  · intro m₁ h₁ m₂ h₂
    calc m₂.rule.specificity ≤ maxSpec remote mappings :=
          spec_le_maxSpec remote mappings m₂ h₂
      _ = m₁.rule.specificity := (topRank_spec_eq remote mappings m₁ h₁).symm
  · intro m htop
    simp only [resolve, hfind, htop]
  · intro m hlen hmrc
    cases htr : topRank remote mappings with
    | nil => rw [htr] at hlen; simp at hlen
    | cons a t =>
      cases t with
      | nil => rw [htr] at hlen; simp at hlen
      | cons b rest =>
        rw [htr] at hmrc
        simp only [resolve, hfind, htr, hmrc]
  · intro hlen
    cases htr : topRank remote mappings with
    | nil =>
      rw [htr] at hlen
      simp [mostRecentCreated] at hlen
    | cons a t =>
      cases t with
      | nil =>
        rw [htr] at hlen
        have hle : (mostRecentCreated [a]).length ≤ 1 :=
          List.length_filter_le _ [a]
        omega
      | cons b rest =>
        rw [htr] at hlen
        cases hmrc : mostRecentCreated (a :: b :: rest) with
        | nil => rw [hmrc] at hlen; simp at hlen
        | cons x t' =>
          cases t' with
          | nil => rw [hmrc] at hlen; simp at hlen
          | cons y t'' =>
            simp only [resolve, hfind, htr, hmrc]

/-- Witness for C2 at the spec's own scenario: pattern
`github.com/org/*` → A and `github.com/org/secret-*` → B both match
`github.com/org/secret-repo`; the longer literal prefix wins, so the
outcome is `Unique B`. -/
theorem resolve_pattern_ranking_witness :
    resolve "github.com/org/secret-repo"
      [{ id := "m1", rule := .pattern "github.com/org/*",
         accountId := "A", remember := true, createdAt := 5 },
       { id := "m2", rule := .pattern "github.com/org/secret-*",
         accountId := "B", remember := true, createdAt := 1 }]
      [{ id := "A", name := "alice", createdAt := 0 },
       { id := "B", name := "bob", createdAt := 0 }] = .Unique "B" :=
  (resolve_pattern_ranking "github.com/org/secret-repo"
      [{ id := "m1", rule := .pattern "github.com/org/*",
         accountId := "A", remember := true, createdAt := 5 },
       { id := "m2", rule := .pattern "github.com/org/secret-*",
         accountId := "B", remember := true, createdAt := 1 }]
      [{ id := "A", name := "alice", createdAt := 0 },
       { id := "B", name := "bob", createdAt := 0 }]
      (by decide) (by decide)).2.1
    { id := "m2", rule := .pattern "github.com/org/secret-*",
      accountId := "B", remember := true, createdAt := 1 }
    (by decide)


/-- An exact rule equal to the remote identity also matches it. -/
theorem exact_implies_matches (remote : String) (m : Mapping)
    (h : isExactFor remote m = true) : ruleMatches m.rule remote = true := by
  unfold isExactFor at h
  cases hr : m.rule with
  | exact k =>
    rw [hr] at h
    simp only [decide_eq_true_eq] at h
    simp [ruleMatches, h]
  | pattern p => rw [hr] at h; simp at h

/-- C3.  Remember law: from a state holding a PendingSelection for the
remote and an existing account (and, as the store's exact-key uniqueness
guarantees while a selection is pending, no exact rule for the remote
yet), `SubmitSelection(remote, account, remember := true)` followed by a
fresh `Resolve` for the same remote answers `Unique(account)` at once,
leaves the state untouched, and the state holds no PendingSelection for
that remote. -/
theorem remember_law (st : CoordState) (remote : String) (a : Account)
    (hp : (st.pending.find? (isFor remote)).isSome = true)
    (ha : a ∈ st.accounts)
    (hnoexact : ∀ m ∈ st.mappings, isExactFor remote m = false) :
    coordResolve (submitSelection st remote a.id true).1 remote
      = ((submitSelection st remote a.id true).1, .answered a.id) ∧
    ∀ p ∈ (submitSelection st remote a.id true).1.pending,
      p.remote ≠ remote := by
  rcases Option.isSome_iff_exists.mp hp with ⟨p, hfp⟩
  have hacct : accountExists st.accounts a.id = true := by
    simp only [accountExists, List.any_eq_true]
    exact ⟨a, ha, by simp⟩
  have hconf : hasExactConflict remote a.id st.mappings = false := by
    simp only [hasExactConflict, List.any_eq_false]
    intro m hm
    simp [hnoexact m hm]
  have hsub : (submitSelection st remote a.id true).1 =
      { st with
        mappings := { id := toString st.nextMapId, rule := .exact remote,
                      accountId := a.id, remember := true, createdAt := 0 }
                    :: st.mappings,
        nextMapId := st.nextMapId + 1,
        pending := st.pending.filter (fun q => !isFor remote q),
        requests := releaseWaiters p.waiters a.id st.requests } := by
    simp [submitSelection, hfp, hacct, createExactMapping, hconf]
  have hres : resolve remote
      ({ id := toString st.nextMapId, rule := .exact remote,
         accountId := a.id, remember := true, createdAt := 0 }
        :: st.mappings) st.accounts = .Unique a.id := by
    unfold resolve
    rw [List.find?_cons_of_pos _ (by simp [isExactFor])]
  constructor
  · rw [hsub]
    simp only [coordResolve]
    rw [hres]
  · rw [hsub]
    intro q hq
    have := (List.mem_filter.mp hq).2
    simp only [isFor, Bool.not_eq_true'] at this
    simpa using this

/-- Witness for C3: submitting account `A` with remember for the pending
remote `r`, then resolving `r` afresh, answers `A` with no state change. -/
theorem remember_law_witness :
    coordResolve
      (submitSelection
        { accounts := [{ id := "A", name := "alice", createdAt := 0 },
                       { id := "B", name := "bob", createdAt := 0 }],
          mappings := [], pending := [{ remote := "r", waiters := [0] }],
          requests := [{ reqId := 0, remote := "r", state := .Pending }],
          nextReqId := 1, nextMapId := 0 } "r" "A" true).1 "r"
      = ((submitSelection
          { accounts := [{ id := "A", name := "alice", createdAt := 0 },
                         { id := "B", name := "bob", createdAt := 0 }],
            mappings := [], pending := [{ remote := "r", waiters := [0] }],
            requests := [{ reqId := 0, remote := "r", state := .Pending }],
            nextReqId := 1, nextMapId := 0 } "r" "A" true).1,
         .answered "A") :=
  (remember_law
    { accounts := [{ id := "A", name := "alice", createdAt := 0 },
                   { id := "B", name := "bob", createdAt := 0 }],
      mappings := [], pending := [{ remote := "r", waiters := [0] }],
      requests := [{ reqId := 0, remote := "r", state := .Pending }],
      nextReqId := 1, nextMapId := 0 } "r"
    { id := "A", name := "alice", createdAt := 0 }
    (by decide) (by decide) (by decide)).1

/-- C4.  Single-account shortcut: with exactly one Account and no Mapping
matching the remote, the pure Resolver answers `Ambiguous`, yet the
Coordinator's `Resolve` answers that account immediately with no state
created (so no PendingSelection). -/
theorem single_account_shortcut (st : CoordState) (remote : String)
    (a : Account) (hacc : st.accounts = [a])
    (hnomatch : ∀ m ∈ st.mappings, ruleMatches m.rule remote = false) :
    resolve remote st.mappings st.accounts = .Ambiguous ∧
    coordResolve st remote = (st, .answered a.id) := by
  have hfind : st.mappings.find? (isExactFor remote) = none := by
    rw [List.find?_eq_none]
    intro m hm hx
    have := exact_implies_matches remote m (by simpa using hx)
    rw [hnomatch m hm] at this
    cases this
  have hcands : patternCands remote st.mappings = [] := by
    simp only [patternCands, List.filter_eq_nil_iff]
    intro m hm
    simp [hnomatch m hm]
  have htop : topRank remote st.mappings = [] := by
    rw [topRank, hcands]; rfl
  have hres : resolve remote st.mappings st.accounts = .Ambiguous := by
    simp [resolve, hfind, htop, hacc]
  have hany : st.mappings.any (fun m => ruleMatches m.rule remote) = false := by
    simp only [List.any_eq_false]
    intro m hm
    simp [hnomatch m hm]
  refine ⟨hres, ?_⟩
  have hres' : resolve remote st.mappings [a] = .Ambiguous := by
    rw [← hacc]; exact hres
  simp [coordResolve, hres', hacc, hany]

/-- Witness for C4: one account, one non-matching pattern mapping — the
Resolver is conservative but the Coordinator answers the lone account. -/
theorem single_account_shortcut_witness :
    resolve "gitlab.com/me/repo"
      [{ id := "m1", rule := .pattern "github.com/*",
         accountId := "A", remember := true, createdAt := 0 }]
      [{ id := "A", name := "alice", createdAt := 0 }] = .Ambiguous ∧
    coordResolve
      { accounts := [{ id := "A", name := "alice", createdAt := 0 }],
        mappings := [{ id := "m1", rule := .pattern "github.com/*",
                       accountId := "A", remember := true, createdAt := 0 }],
        pending := [], requests := [], nextReqId := 0, nextMapId := 0 }
      "gitlab.com/me/repo"
      = ({ accounts := [{ id := "A", name := "alice", createdAt := 0 }],
           mappings := [{ id := "m1", rule := .pattern "github.com/*",
                          accountId := "A", remember := true, createdAt := 0 }],
           pending := [], requests := [], nextReqId := 0, nextMapId := 0 },
         .answered "A") :=
  single_account_shortcut
    { accounts := [{ id := "A", name := "alice", createdAt := 0 }],
      mappings := [{ id := "m1", rule := .pattern "github.com/*",
                     accountId := "A", remember := true, createdAt := 0 }],
      pending := [], requests := [], nextReqId := 0, nextMapId := 0 }
    "gitlab.com/me/repo" { id := "A", name := "alice", createdAt := 0 }
    (by decide) (by decide)

/-- C5.  Timeout law: a PendingSelection reaching its deadline with no
`SubmitSelection` transitions every waiting Pending CredentialRequest to
TimedOut (each blocked caller thereby receives a failure), and the
Mapping store is unchanged — neither timeout nor `Cancel` writes a
Mapping. -/
theorem timeout_law (st : CoordState) (remote : String)
    (p : PendingSelection)
    (hp : st.pending.find? (isFor remote) = some p) :
    (∀ r ∈ st.requests, p.waiters.contains r.reqId = true →
       r.state = .Pending →
       ∃ r' ∈ (timeoutPending st remote).requests,
         r'.reqId = r.reqId ∧ r'.state = .TimedOut) ∧
    (timeoutPending st remote).mappings = st.mappings ∧
    (cancelPending st remote).mappings = st.mappings := by
  have hreq : (timeoutPending st remote).requests =
      st.requests.map (fun r =>
        if p.waiters.contains r.reqId && r.state = .Pending then
          { r with state := .TimedOut }
        else r) := by
    simp only [timeoutPending, closePending, hp]
  refine ⟨?_, ?_, ?_⟩
  · intro r hr hc hs
    refine ⟨{ r with state := .TimedOut }, ?_, rfl, rfl⟩
    rw [hreq]
    have hcond : (if p.waiters.contains r.reqId && r.state = .Pending then
        { r with state := .TimedOut } else r) = { r with state := .TimedOut } := by
      rw [if_pos]
      rw [hc, hs]
      simp
    rw [← hcond]
    exact List.mem_map_of_mem _ hr
  · simp only [timeoutPending, closePending, hp]
  · simp only [cancelPending, closePending, hp]

/-- Witness for C5: one pending waiter for `r` times out and the mapping
table stays empty; `Cancel` likewise writes nothing. -/
theorem timeout_law_witness :
    (∃ r' ∈ (timeoutPending
        { accounts := [{ id := "A", name := "alice", createdAt := 0 },
                       { id := "B", name := "bob", createdAt := 0 }],
          mappings := [], pending := [{ remote := "r", waiters := [0] }],
          requests := [{ reqId := 0, remote := "r", state := .Pending }],
          nextReqId := 1, nextMapId := 0 } "r").requests,
       r'.reqId = 0 ∧ r'.state = .TimedOut) ∧
    (timeoutPending
        { accounts := [{ id := "A", name := "alice", createdAt := 0 },
                       { id := "B", name := "bob", createdAt := 0 }],
          mappings := [], pending := [{ remote := "r", waiters := [0] }],
          requests := [{ reqId := 0, remote := "r", state := .Pending }],
          nextReqId := 1, nextMapId := 0 } "r").mappings = [] ∧
    (cancelPending
        { accounts := [{ id := "A", name := "alice", createdAt := 0 },
                       { id := "B", name := "bob", createdAt := 0 }],
          mappings := [], pending := [{ remote := "r", waiters := [0] }],
          requests := [{ reqId := 0, remote := "r", state := .Pending }],
          nextReqId := 1, nextMapId := 0 } "r").mappings = [] := by
  have h := timeout_law
    { accounts := [{ id := "A", name := "alice", createdAt := 0 },
                   { id := "B", name := "bob", createdAt := 0 }],
      mappings := [], pending := [{ remote := "r", waiters := [0] }],
      requests := [{ reqId := 0, remote := "r", state := .Pending }],
      nextReqId := 1, nextMapId := 0 } "r" { remote := "r", waiters := [0] }
    (by decide)
  exact ⟨h.1 { reqId := 0, remote := "r", state := .Pending }
      (by decide) (by decide) (by decide), h.2.1, h.2.2⟩

/-- C6.  With zero Accounts (and hence, by the store's referential
invariant, no Mappings), the Coordinator's `Resolve` fails immediately
and deterministically with `NoAccountsConfigured`, leaving the state
untouched — no PendingSelection is created and the interactive channel
is never prompted. -/
theorem no_accounts_fail (st : CoordState) (remote : String)
    (hacc : st.accounts = [])
    (hinv : ∀ m ∈ st.mappings, ∃ a ∈ st.accounts, a.id = m.accountId) :
    coordResolve st remote = (st, .failed .NoAccountsConfigured) := by
  have hmaps : st.mappings = [] := by
    cases hm : st.mappings with
    | nil => rfl
    | cons m t =>
      rcases hinv m (by rw [hm]; exact List.mem_cons_self _ _) with ⟨a, haa, _⟩
      rw [hacc] at haa
      cases haa
  have hres : resolve remote st.mappings st.accounts = .NotFound := by
    rw [hmaps, hacc]; rfl
  have hres' : resolve remote st.mappings [] = .NotFound := by
    rw [← hacc]; exact hres
  simp [coordResolve, hacc, hres']

/-- Witness for C6: an empty store fails with `NoAccountsConfigured`. -/
theorem no_accounts_fail_witness :
    coordResolve
      { accounts := [], mappings := [], pending := [], requests := [],
        nextReqId := 0, nextMapId := 0 } "github.com/org/repo"
      = ({ accounts := [], mappings := [], pending := [], requests := [],
           nextReqId := 0, nextMapId := 0 },
         .failed .NoAccountsConfigured) :=
  no_accounts_fail
    { accounts := [], mappings := [], pending := [], requests := [],
      nextReqId := 0, nextMapId := 0 } "github.com/org/repo"
    (by decide) (by simp)

/-- C7.  The Resolver is a pure, deterministic function: two calls of
`resolve` on the same remote identity, mapping table, and account table
return the same outcome. -/
theorem resolve_deterministic (remote : String) (mappings : List Mapping)
    (accounts : List Account) (o₁ o₂ : Resolution)
    (h₁ : resolve remote mappings accounts = o₁)
    (h₂ : resolve remote mappings accounts = o₂) : o₁ = o₂ := by
  rw [← h₁, ← h₂]

/-- Witness for C7: two evaluations of `resolve` on a one-mapping table
agree. -/
theorem resolve_deterministic_witness :
    (Resolution.Unique "A" : Resolution) = .Unique "A" :=
  resolve_deterministic "github.com/org/repo"
    [{ id := "m1", rule := .exact "github.com/org/repo",
       accountId := "A", remember := true, createdAt := 0 }]
    [] (.Unique "A") (.Unique "A") (by decide) (by decide)

/-- Extending a selection with a new waiter keeps its remote. -/
theorem extendSel_remote (remote : String) (rid : Nat)
    (p : PendingSelection) : (extendSel remote rid p).remote = p.remote := by
  unfold extendSel
  split <;> rfl

/-- Extending selections preserves the per-remote selection count. -/
theorem countP_map_extendSel (remote : String) (rid : Nat) :
    ∀ l : List PendingSelection,
      (l.map (extendSel remote rid)).countP (isFor remote)
        = l.countP (isFor remote) := by
  intro l
  induction l with
  | nil => rfl
  | cons h t ih =>
    rw [List.map_cons, List.countP_cons, List.countP_cons, ih]
    have : isFor remote (extendSel remote rid h) = isFor remote h := by
      unfold isFor
      rw [extendSel_remote]
    rw [this]

/-- `find?` commutes with waiter extension on the remote's selection. -/
theorem find?_map_extendSel (remote : String) (rid : Nat) :
    ∀ (l : List PendingSelection) (p : PendingSelection),
      l.find? (isFor remote) = some p →
      (l.map (extendSel remote rid)).find? (isFor remote)
        = some (extendSel remote rid p) := by
  intro l
  induction l with
  | nil => intro p hp; cases hp
  | cons h t ih =>
    intro p hp
    cases hh : isFor remote h with
    | true =>
      rw [List.find?_cons_of_pos _ hh] at hp
      cases hp
      rw [List.map_cons]
      apply List.find?_cons_of_pos
      unfold isFor
      rw [extendSel_remote]
      exact hh
    | false =>
      rw [List.find?_cons_of_neg _ (by simp [hh])] at hp
      rw [List.map_cons]
      rw [List.find?_cons_of_neg]
      · exact ih p hp
      · unfold isFor
        rw [extendSel_remote]
        simp [isFor] at hh
        simp [hh]

/-- Parking never touches the stores and bumps the fresh request id. -/
theorem park_state (st : CoordState) (remote : String) :
    (park st remote).1.mappings = st.mappings ∧
    (park st remote).1.accounts = st.accounts ∧
    (park st remote).1.nextReqId = st.nextReqId + 1 :=
  ⟨rfl, rfl, rfl⟩

/-- Parking onto an existing selection joins it: the selection count is
unchanged and the new request id is appended to the waiter list. -/
theorem park_join (st : CoordState) (remote : String) (p : PendingSelection)
    (hp : st.pending.find? (isFor remote) = some p) :
    pendingCount remote (park st remote).1 = pendingCount remote st ∧
    waitersFor remote (park st remote).1
      = waitersFor remote st ++ [st.nextReqId] := by
  have hany : st.pending.any (isFor remote) = true := by
    rw [List.any_eq_true]
    exact ⟨p, List.mem_of_find?_eq_some hp, List.find?_some hp⟩
  have hpend : (park st remote).1.pending
      = st.pending.map (extendSel remote st.nextReqId) := by
    simp [park, hany]
  constructor
  · rw [pendingCount, pendingCount, hpend, countP_map_extendSel]
  · rw [waitersFor, waitersFor, hpend,
      find?_map_extendSel remote st.nextReqId st.pending p hp, hp]
    unfold extendSel
    rw [if_pos (List.find?_some hp)]

/-- Parking with no selection for the remote creates exactly one, whose
sole waiter is the fresh request id. -/
theorem park_create (st : CoordState) (remote : String)
    (hp : st.pending.find? (isFor remote) = none) :
    pendingCount remote (park st remote).1 = 1 ∧
    waitersFor remote (park st remote).1 = [st.nextReqId] := by
  have hnone := List.find?_eq_none.mp hp
  have hany : st.pending.any (isFor remote) = false := by
    rw [List.any_eq_false]
    exact hnone
  have hpend : (park st remote).1.pending
      = st.pending ++ [{ remote := remote, waiters := [st.nextReqId] }] := by
    simp [park, hany]
  have hzero : st.pending.countP (isFor remote) = 0 :=
    List.countP_eq_zero.mpr hnone
  constructor
  · rw [pendingCount, hpend, List.countP_append, hzero]
    simp [isFor]
  · rw [waitersFor, hpend, List.find?_append, hp]
    simp [isFor]

/-- When the Resolver has no unique answer and at least two accounts are
configured, the Coordinator parks the request. -/
theorem coordResolve_parks (st : CoordState) (remote : String)
    (hres : (resolve remote st.mappings st.accounts).isUnique = false)
    (hacc : 2 ≤ st.accounts.length) :
    coordResolve st remote = park st remote := by
  unfold coordResolve
  cases hacl : st.accounts with
  | nil => rw [hacl] at hacc; simp at hacc
  | cons a t =>
    cases t with
    | nil => rw [hacl] at hacc; simp at hacc
    | cons b u =>
      cases hr : resolve remote st.mappings st.accounts with
      | Unique aid => rw [hr] at hres; simp [Resolution.isUnique] at hres
      | Ambiguous => rw [hacl] at hr; rw [hr]
      | NotFound => rw [hacl] at hr; rw [hr]

/-- While one PendingSelection is open for the remote, further serialized
`Resolve` calls keep the stores, keep exactly one selection, and append
their fresh request ids to the waiter list in arrival order. -/
theorem resolveMany_coalesce (remote : String) :
    ∀ (n : Nat) (st : CoordState),
      (resolve remote st.mappings st.accounts).isUnique = false →
      2 ≤ st.accounts.length →
      pendingCount remote st = 1 →
      (resolveMany st remote n).mappings = st.mappings ∧
      (resolveMany st remote n).accounts = st.accounts ∧
      (resolveMany st remote n).nextReqId = st.nextReqId + n ∧
      pendingCount remote (resolveMany st remote n) = 1 ∧
      waitersFor remote (resolveMany st remote n)
        = waitersFor remote st ++ List.range' st.nextReqId n := by
  intro n
  induction n with
  | zero =>
    intro st _ _ h3
    exact ⟨rfl, rfl, rfl, h3, by simp [resolveMany, List.range']⟩
  | succ k ih =>
    intro st h1 h2 h3
    have hpark := coordResolve_parks st remote h1 h2
    have hsome : (st.pending.find? (isFor remote)).isSome := by
      rw [List.find?_isSome]
      have hpos : 0 < st.pending.countP (isFor remote) := by
        unfold pendingCount at h3
        omega
      exact List.countP_pos_iff.mp hpos
    rcases Option.isSome_iff_exists.mp hsome with ⟨p, hfp⟩
    have hjoin := park_join st remote p hfp
    have hstep : resolveMany st remote (k + 1)
        = resolveMany (park st remote).1 remote k := by
      rw [resolveMany, hpark]
    have h1' : (resolve remote (park st remote).1.mappings
        (park st remote).1.accounts).isUnique = false := by
      rw [(park_state st remote).1, (park_state st remote).2.1]
      exact h1
    have h2' : 2 ≤ (park st remote).1.accounts.length := by
      rw [(park_state st remote).2.1]
      exact h2
    have h3' : pendingCount remote (park st remote).1 = 1 := by
      rw [hjoin.1]
      exact h3
    have hrec := ih (park st remote).1 h1' h2' h3'
    refine ⟨?_, ?_, ?_, ?_, ?_⟩
    · rw [hstep, hrec.1, (park_state st remote).1]
    · rw [hstep, hrec.2.1, (park_state st remote).2.1]
    · rw [hstep, hrec.2.2.1, (park_state st remote).2.2]
      omega
    · rw [hstep]
      exact hrec.2.2.2.1
    · rw [hstep, hrec.2.2.2.2, hjoin.2, (park_state st remote).2.2]
      rw [List.append_assoc]
      rfl

/-- The interactive channel's listing shows as many entries for a remote
as the Coordinator holds PendingSelections for it. -/
theorem listPending_countP (remote : String) (st : CoordState) :
    (listPending st).countP (fun s => s = remote) = pendingCount remote st := by
  unfold listPending pendingCount
  rw [List.countP_map]
  rfl

/-- Released requests carry the chosen account: in the output of
`releaseWaiters`, every request whose id is among the waiters is in state
`Resolved` of that account. -/
theorem releaseWaiters_resolved (w : List Nat) (aid : String)
    (reqs : List CredentialRequest) :
    ∀ r ∈ releaseWaiters w aid reqs, w.contains r.reqId = true →
      r.state = .Resolved aid := by
  intro r hr hc
  rcases List.mem_map.mp hr with ⟨r₀, _, heq⟩
  subst heq
  by_cases h : w.contains r₀.reqId = true
  · rw [if_pos h]
  · rw [if_neg h] at hc ⊢
    exact absurd hc h

/-- Creating a mapping leaves the request and pending tables alone. -/
theorem createExactMapping_requests (st : CoordState)
    (remote accountId : String) :
    (createExactMapping st remote accountId).requests = st.requests ∧
    (createExactMapping st remote accountId).pending = st.pending ∧
    (createExactMapping st remote accountId).accounts = st.accounts := by
  unfold createExactMapping
  split <;> exact ⟨rfl, rfl, rfl⟩

/-- C8.  Coalescing: N ≥ 1 serialized `Resolve` calls for one unresolved
remote identity (no unique Resolver answer, at least two accounts, no
selection open yet) leave exactly one PendingSelection and exactly one
`ListPending` entry for that remote; the waiter list is precisely the N
fresh request ids in arrival order; and once a selection is submitted,
every coalesced waiter receives the same outcome — `Resolved` of the one
chosen account. -/
theorem resolve_coalescing (st : CoordState) (remote : String) (n : Nat)
    (h0 : pendingCount remote st = 0)
    (hn : 1 ≤ n)
    (hacc : 2 ≤ st.accounts.length)
    (hres : (resolve remote st.mappings st.accounts).isUnique = false) :
    pendingCount remote (resolveMany st remote n) = 1 ∧
    (listPending (resolveMany st remote n)).countP (fun s => s = remote) = 1 ∧
    waitersFor remote (resolveMany st remote n)
      = List.range' st.nextReqId n ∧
    (∀ accountId,
       accountExists (resolveMany st remote n).accounts accountId = true →
       ∀ r ∈ (submitSelection (resolveMany st remote n) remote
               accountId true).1.requests,
         (waitersFor remote (resolveMany st remote n)).contains r.reqId
           = true →
         r.state = .Resolved accountId) := by
  cases n with
  | zero => exact absurd hn (by omega)
  | succ k =>
    have hfp0 : st.pending.find? (isFor remote) = none := by
      rw [List.find?_eq_none]
      intro q hq
      exact List.countP_eq_zero.mp h0 q hq
    have hpark := coordResolve_parks st remote hres hacc
    have hcreate := park_create st remote hfp0
    have hstep : resolveMany st remote (k + 1)
        = resolveMany (park st remote).1 remote k := by
      rw [resolveMany, hpark]
    have h1' : (resolve remote (park st remote).1.mappings
        (park st remote).1.accounts).isUnique = false := by
      rw [(park_state st remote).1, (park_state st remote).2.1]
      exact hres
    have h2' : 2 ≤ (park st remote).1.accounts.length := by
      rw [(park_state st remote).2.1]
      exact hacc
    have hrec := resolveMany_coalesce remote k (park st remote).1
      h1' h2' hcreate.1
    have hcount : pendingCount remote (resolveMany st remote (k + 1)) = 1 := by
      rw [hstep]
      exact hrec.2.2.2.1
    have hwait : waitersFor remote (resolveMany st remote (k + 1))
        = List.range' st.nextReqId (k + 1) := by
      rw [hstep, hrec.2.2.2.2, hcreate.2, (park_state st remote).2.2]
      rfl
    refine ⟨hcount, ?_, hwait, ?_⟩
    · rw [listPending_countP]
      exact hcount
    · intro aid hex r hr hcont
      have hposF :
          0 < (resolveMany st remote (k + 1)).pending.countP (isFor remote) := by
        have := hcount
        unfold pendingCount at this
        omega
      have hsomeF :
          ((resolveMany st remote (k + 1)).pending.find? (isFor remote)).isSome := by
        rw [List.find?_isSome]
        rcases List.countP_pos_iff.mp hposF with ⟨p, hp, hip⟩
        exact ⟨p, hp, hip⟩
      rcases Option.isSome_iff_exists.mp hsomeF with ⟨pF, hfpF⟩
      have hwF : waitersFor remote (resolveMany st remote (k + 1))
          = pF.waiters := by
        unfold waitersFor
        rw [hfpF]
      have hreqF : (submitSelection (resolveMany st remote (k + 1)) remote
          aid true).1.requests
          = releaseWaiters pF.waiters aid
              (resolveMany st remote (k + 1)).requests := by
        simp only [submitSelection, hfpF]
        rw [if_pos hex]
        show releaseWaiters pF.waiters aid
            (createExactMapping (resolveMany st remote (k + 1))
              remote aid).requests
          = releaseWaiters pF.waiters aid
              (resolveMany st remote (k + 1)).requests
        rw [(createExactMapping_requests
          (resolveMany st remote (k + 1)) remote aid).1]
      rw [hreqF] at hr
      rw [hwF] at hcont
      exact releaseWaiters_resolved pF.waiters aid _ r hr hcont

/-- Witness for C8: two serialized requests for remote `r` against a
two-account store coalesce into one selection with waiters `[0, 1]`, and
after `SubmitSelection` of account `A` the first waiter is `Resolved A`. -/
theorem resolve_coalescing_witness :
    pendingCount "r" (resolveMany sampleCoalesceState "r" 2) = 1 ∧
    (listPending (resolveMany sampleCoalesceState "r" 2)).countP
      (fun s => s = "r") = 1 ∧
    waitersFor "r" (resolveMany sampleCoalesceState "r" 2)
      = List.range' 0 2 ∧
    ({ reqId := 0, remote := "r", state := .Resolved "A" } :
      CredentialRequest).state = .Resolved "A" := by
  have h := resolve_coalescing sampleCoalesceState "r" 2
    (by decide) (by decide) (by decide) (by decide)
  exact ⟨h.1, h.2.1, h.2.2.1,
    h.2.2.2 "A" (by decide)
      { reqId := 0, remote := "r", state := .Resolved "A" }
      (by decide) (by decide)⟩

/-- C9.  `loadData` is atomic with respect to failure: if any of the
three backend fetches rejects, none of `accounts`, `mappings`, or
`gitHelperStatus` changes and the error message is set; if all three
succeed, all three are updated to the fetched values and the error is
cleared. -/
theorem loadData_atomic (st : App.AppState)
    (ra : Except String (List App.Account))
    (rm : Except String (List App.RepositoryMapping))
    (rg : Except String App.GitHelperStatus) :
    (((∃ e, ra = .error e) ∨ (∃ e, rm = .error e) ∨ (∃ e, rg = .error e)) →
       (App.loadData st ra rm rg).accounts = st.accounts ∧
       (App.loadData st ra rm rg).mappings = st.mappings ∧
       (App.loadData st ra rm rg).gitHelperStatus = st.gitHelperStatus ∧
       (App.loadData st ra rm rg).error.isSome = true) ∧
    (∀ accountsData mappingsData gitStatus,
       ra = .ok accountsData → rm = .ok mappingsData → rg = .ok gitStatus →
       (App.loadData st ra rm rg).accounts = accountsData ∧
       (App.loadData st ra rm rg).mappings = mappingsData ∧
       (App.loadData st ra rm rg).gitHelperStatus = gitStatus ∧
       (App.loadData st ra rm rg).error = none) := by
  constructor
  · intro h
    have herr : ∃ e, App.promiseAll3 ra rm rg
        = (.error e : Except String _) := by
      cases ra with
      | error e => exact ⟨e, by cases rm <;> cases rg <;> rfl⟩
      | ok x =>
        cases rm with
        | error e => exact ⟨e, by cases rg <;> rfl⟩
        | ok y =>
          cases rg with
          | error e => exact ⟨e, rfl⟩
          | ok z =>
            rcases h with ⟨e, he⟩ | ⟨e, he⟩ | ⟨e, he⟩ <;>
              exact Except.noConfusion he
    rcases herr with ⟨e, he⟩
    refine ⟨?_, ?_, ?_, ?_⟩ <;> simp [App.loadData, he]
  · intro accountsData mappingsData gitStatus ha hm hg
    subst ha; subst hm; subst hg
    exact ⟨rfl, rfl, rfl, rfl⟩

/-- Witness for C9: a rejected accounts fetch leaves the state variables
alone and sets the error; an all-success load updates them and clears
it. -/
theorem loadData_atomic_witness :
    ((App.loadData initialAppState (.error "ipc down") (.ok [])
        (.ok sampleStatus)).accounts = initialAppState.accounts ∧
     (App.loadData initialAppState (.error "ipc down") (.ok [])
        (.ok sampleStatus)).mappings = initialAppState.mappings ∧
     (App.loadData initialAppState (.error "ipc down") (.ok [])
        (.ok sampleStatus)).gitHelperStatus
        = initialAppState.gitHelperStatus ∧
     (App.loadData initialAppState (.error "ipc down") (.ok [])
        (.ok sampleStatus)).error.isSome = true) ∧
    (App.loadData initialAppState (.ok []) (.ok [])
        (.ok sampleStatus)).error = none :=
  ⟨(loadData_atomic initialAppState (.error "ipc down") (.ok [])
      (.ok sampleStatus)).1 (Or.inl ⟨"ipc down", rfl⟩),
   ((loadData_atomic initialAppState (.ok []) (.ok [])
      (.ok sampleStatus)).2 [] [] sampleStatus rfl rfl rfl).2.2.2⟩

/-- Counterexample for C10 as stated: an account whose username is the
empty string matches the mapping's account_id, yet the rendered account
name is `'Unknown'`, not that account's username — JavaScript `||`
treats the empty string as falsy. -/
theorem mapping_unknown_cex :
    App.displayedAccountName
      [{ id := "a1", username := "", avatar_url := none,
         auth_method := "token", created_at := "2024-01-01" }]
      { id := "m1", remote_url := "https://github.com/o/r",
        account_id := "a1", remember := true, created_at := "2024-01-01" }
      ≠ ({ id := "a1", username := "", avatar_url := none,
           auth_method := "token",
           created_at := "2024-01-01" } : App.Account).username := by
  decide

/-- C10 (amended).  Every mapping is rendered as a card; a mapping whose
account_id matches no loaded account shows the literal `'Unknown'`; when
an account matches, its username is shown unless that username is the
empty string, which also falls back to `'Unknown'`. -/
theorem mapping_render_fallback (accounts : List App.Account)
    (mappings : List App.RepositoryMapping) (m : App.RepositoryMapping)
    (hm : m ∈ mappings) :
    (∃ card ∈ App.renderMappings accounts mappings,
       card.remote_url = m.remote_url ∧
       card.accountName = App.displayedAccountName accounts m) ∧
    ((∀ a ∈ accounts, a.id ≠ m.account_id) →
       App.displayedAccountName accounts m = "Unknown") ∧
    (∀ a, accounts.find? (fun x => x.id = m.account_id) = some a →
       App.displayedAccountName accounts m
         = if a.username = "" then "Unknown" else a.username) := by
  refine ⟨?_, ?_, ?_⟩
  · exact ⟨_, List.mem_map_of_mem _ hm, rfl, rfl⟩
  · intro h
    have hf : accounts.find? (fun x => x.id = m.account_id) = none := by
      rw [List.find?_eq_none]
      intro a ha
      simp [h a ha]
    unfold App.displayedAccountName
    rw [hf]
  · intro a hfa
    unfold App.displayedAccountName
    rw [hfa]

/-- Witness for C10 (amended): a mapping pointing at the absent id `a9`
still renders, with account name `'Unknown'`. -/
theorem mapping_render_fallback_witness :
    App.displayedAccountName
      [{ id := "a1", username := "bob", avatar_url := none,
         auth_method := "token", created_at := "2024-01-01" }]
      { id := "m1", remote_url := "https://github.com/o/r",
        account_id := "a9", remember := true, created_at := "2024-01-01" }
      = "Unknown" :=
  (mapping_render_fallback
    [{ id := "a1", username := "bob", avatar_url := none,
       auth_method := "token", created_at := "2024-01-01" }]
    [{ id := "m1", remote_url := "https://github.com/o/r",
       account_id := "a9", remember := true, created_at := "2024-01-01" }]
    { id := "m1", remote_url := "https://github.com/o/r",
      account_id := "a9", remember := true, created_at := "2024-01-01" }
    (by decide)).2.1 (by decide)

end GitSwitchHub
